import Mathlib

/-!
Verification of the IMU measurement pipeline: a shallow embedding of the
firmware frame encoder (Arduino sketch), the LSM6DS3 driver setup, the
Processing host conversion, storage and quadrature-detection code, and a
spec-modelled host frame decoder with sequence tracking.
-/

namespace IMUMeas

/-! ## Firmware frame encoder (Arduino sketch: calcChecksum, sendData) -/

/-- Frame header constant of the firmware. -/
def HEADER : Nat := 0x7F

/-- Frame footer constant of the firmware. -/
def FOOTER : Nat := 0xFE

/-- Frame length for n sensors: HEADER(1) + SEQ(2) + 6n data bytes +
CHECKSUM(2) + FOOTER(1), as computed in the sketch. -/
def DATA_LEN (n : Nat) : Nat := 1 + 2 + 6 * n + 2 + 1

/-- The 16-bit two-complement image of an int16 raw count, from which the
sketch takes the high byte via an arithmetic shift and the low byte via a
bitwise mask. -/
def toU16 (r : Int) : Nat := (r % 65536).toNat

/-- The big-endian byte pair the sketch writes for one int16 raw count. -/
def encInt16 (r : Int) : List Nat := [toU16 r / 256, toU16 r % 256]

/-- The six payload bytes one sensor contributes: ax, ay, az, each int16
big-endian, in that order. -/
def encSample (s : Int × Int × Int) : List Nat :=
  encInt16 s.1 ++ encInt16 s.2.1 ++ encInt16 s.2.2

/-- calcChecksum: byte-wise additive checksum accumulated in a uint16, so
every step wraps mod 65536. -/
def calcChecksum (buf : List Nat) : Nat :=
  buf.foldl (fun s b => (s + b) % 65536) 0

/-- The bytes sendData writes before the checksum: header, big-endian
sequence counter (a uint16, hence reduced mod 65536), then the payload of
each sensor in index order. The checksum is computed over exactly these. -/
def preFrame (seq : Nat) (raws : List (Int × Int × Int)) : List Nat :=
  HEADER :: seq % 65536 / 256 :: seq % 65536 % 256 :: (raws.map encSample).flatten

/-- sendData (active branch): the full frame written for one timer tick. -/
def sendDataFrame (seq : Nat) (raws : List (Int × Int × Int)) : List Nat :=
  preFrame seq raws ++
    [calcChecksum (preFrame seq raws) / 256,
     calcChecksum (preFrame seq raws) % 256, FOOTER]

theorem calcChecksum_go (buf : List Nat) :
    ∀ a : Nat, buf.foldl (fun s b => (s + b) % 65536) (a % 65536)
      = (a + buf.sum) % 65536 := by
  induction buf with
  | nil => intro a; simp
  | cons b t ih =>
    intro a
    simp only [List.foldl_cons, List.sum_cons]
    rw [Nat.mod_add_mod, ih (a + b), Nat.add_assoc]

theorem calcChecksum_eq_sum (buf : List Nat) :
    calcChecksum buf = buf.sum % 65536 := by
  have h := calcChecksum_go buf 0
  simpa [calcChecksum] using h

theorem encSample_length (s : Int × Int × Int) : (encSample s).length = 6 := by
  simp [encSample, encInt16]

theorem joinEnc_length (raws : List (Int × Int × Int)) :
    ((raws.map encSample).flatten).length = 6 * raws.length := by
  induction raws with
  | nil => simp
  | cons r t ih =>
    simp only [List.map_cons, List.flatten_cons, List.length_append,
      encSample_length, ih, List.length_cons]
    ring

theorem joinEnc_extract (raws : List (Int × Int × Int)) :
    ∀ i r, raws.get? i = some r →
      (((raws.map encSample).flatten).drop (6 * i)).take 6 = encSample r := by
  induction raws with
  | nil => intro i r h; simp at h
  | cons hd t ih =>
    intro i r h
    cases i with
    | zero =>
      simp only [List.get?_cons_zero, Option.some.injEq] at h
      subst h
      simp only [List.map_cons, List.flatten_cons, Nat.mul_zero, List.drop_zero]
      rw [← encSample_length hd, List.take_left]
    | succ i =>
      simp only [List.get?_cons_succ] at h
      have stp : 6 * (i + 1) = (encSample hd).length + 6 * i := by
        rw [encSample_length]; ring
      simp only [List.map_cons, List.flatten_cons, stp,
        List.drop_append_eq_append_drop, List.length_append]
      have h6 : (encSample hd).length + 6 * i - (encSample hd).length
          = 6 * i := by omega
      rw [List.drop_eq_nil_of_le (by omega), h6, List.nil_append]
      exact ih i r h

theorem preFrame_length (seq : Nat) (raws : List (Int × Int × Int)) :
    (preFrame seq raws).length = 3 + 6 * raws.length := by
  simp only [preFrame, List.length_cons, joinEnc_length]
  ring

theorem sendDataFrame_length (seq : Nat) (raws : List (Int × Int × Int)) :
    (sendDataFrame seq raws).length = 3 + 6 * raws.length + 3 := by
  simp [sendDataFrame, preFrame_length]

theorem drop_triple_cons (a b c k : Nat) (l : List Nat) :
    (a :: b :: c :: l).drop (k + 3) = l.drop k := rfl

theorem sendDataFrame_take (seq : Nat) (raws : List (Int × Int × Int)) :
    (sendDataFrame seq raws).take (3 + 6 * raws.length) = preFrame seq raws := by
  rw [sendDataFrame, ← preFrame_length seq raws, List.take_left]

theorem sendDataFrame_tail_get (seq : Nat) (raws : List (Int × Int × Int))
    (j : Nat) (v : Nat)
    (hv : [calcChecksum (preFrame seq raws) / 256,
      calcChecksum (preFrame seq raws) % 256, FOOTER].get? j = some v) :
    (sendDataFrame seq raws).get? (3 + 6 * raws.length + j) = some v := by
  rw [sendDataFrame, List.get?_append_right (by rw [preFrame_length]; omega)]
  rw [preFrame_length]
  simpa [Nat.add_sub_cancel_left] using hv

/-- Claim C1: every frame the firmware emits on an active timer tick has
length 3 + 6N + 3; byte 0 is the header constant 0x7F; bytes 1 and 2 are the
16-bit sequence counter big-endian; for each sensor index i the six bytes
starting at offset 3 + 6i are its ax, ay, az as int16 big-endian; the two
bytes at offsets 3 + 6N and 3 + 6N + 1 are, big-endian, the sum of all bytes
from the header through the end of the payload reduced mod 65536; the final
byte is the footer constant 0xFE. -/
theorem frame_format_c1 (seq : Nat) (raws : List (Int × Int × Int)) :
    (sendDataFrame seq raws).length = 3 + 6 * raws.length + 3
  ∧ (sendDataFrame seq raws).get? 0 = some HEADER
  ∧ (sendDataFrame seq raws).get? 1 = some (seq % 65536 / 256)
  ∧ (sendDataFrame seq raws).get? 2 = some (seq % 65536 % 256)
  ∧ (∀ i r, raws.get? i = some r →
      ((sendDataFrame seq raws).drop (3 + 6 * i)).take 6 = encSample r)
  ∧ (sendDataFrame seq raws).get? (3 + 6 * raws.length) =
      some (((sendDataFrame seq raws).take (3 + 6 * raws.length)).sum % 65536 / 256)
  ∧ (sendDataFrame seq raws).get? (3 + 6 * raws.length + 1) =
      some (((sendDataFrame seq raws).take (3 + 6 * raws.length)).sum % 65536 % 256)
  ∧ (sendDataFrame seq raws).get? (3 + 6 * raws.length + 2) = some FOOTER := by
  have htake := sendDataFrame_take seq raws
  have hget := sendDataFrame_tail_get seq raws
  refine ⟨sendDataFrame_length seq raws, ?_, ?_, ?_, ?_, ?_, ?_, ?_⟩
  · simp [sendDataFrame, preFrame]
  · simp [sendDataFrame, preFrame]
  · simp [sendDataFrame, preFrame]
  · intro i r h
    have hi : i < raws.length := by
      by_contra hlt
      rw [List.get?_eq_none.2 (by omega)] at h
      exact Option.noConfusion h
    rw [sendDataFrame, List.drop_append_eq_append_drop,
      List.take_append_eq_append_take]
    have h0 : 6 - ((preFrame seq raws).drop (3 + 6 * i)).length = 0 := by
      rw [List.length_drop, preFrame_length]; omega
    rw [h0, List.take_zero, List.append_nil]
    have hpre : (preFrame seq raws).drop (3 + 6 * i)
        = ((raws.map encSample).flatten).drop (6 * i) := by
      rw [preFrame, Nat.add_comm 3 (6 * i), drop_triple_cons]
    rw [hpre]
    exact joinEnc_extract raws i r h
  · rw [htake, ← calcChecksum_eq_sum]
    simpa using hget 0 _ rfl
  · rw [htake, ← calcChecksum_eq_sum]
    simpa using hget 1 _ rfl
  · simpa using hget 2 _ rfl

/-- Witness for C1 at a concrete frame: one sensor reading (1, -2, 300)
with sequence counter 5. -/
theorem frame_format_c1_witness :
    ((sendDataFrame 5 [((1 : Int), -2, 300)]).drop 3).take 6
      = encSample ((1 : Int), -2, 300) := by
  have h := (frame_format_c1 5 [((1 : Int), -2, 300)]).2.2.2.2.1 0
    ((1 : Int), -2, 300) rfl
  simpa using h

/-! ## Host byte unpacking (Processing sketch: serialEvent)

The Processing sketch stores incoming bytes in a Java byte array, whose
elements are signed, and reconstructs each raw count as
(buffer[hi] << 8) + int(buffer[lo]); both bytes are sign-extended. -/

/-- The signed value a Java byte with unsigned image b takes. -/
def byteVal (b : Nat) : Int := if b < 128 then (b : Int) else (b : Int) - 256

/-- serialEvent raw-count unpacking: shift the (sign-extended) high byte and
add the (sign-extended) low byte. -/
def decodeInt16 (hi lo : Nat) : Int := byteVal hi * 256 + byteVal lo

/-- Claim C2 fails on the code: the firmware encodes 32767 as the bytes
127, 255, but the serialEvent unpacking sign-extends the low byte and
reconstructs 32511, not 32767. -/
theorem roundtrip_c2_bug :
    encInt16 32767 = [127, 255]
  ∧ decodeInt16 127 255 = 32511
  ∧ decodeInt16 127 255 ≠ (32767 : Int) := by decide

/-! ## Host frame decoder (spec-modelled)

The repository README states that only the Python host
(python/measurement_imu, the measurement_system.py port) implements the
current checksum/seq protocol, and that script is not among the source
files here; the Processing sketch reads fixed-size packets with no header
scan, no checksum and no sequence handling. The decoder below is therefore
modelled from the spec alone. -/

/-- Modelled from the spec: VALIDATE step of the missing Python host
decoder. Recompute the additive checksum over header..payload, compare it
big-endian to the embedded value, and check the footer byte; the candidate
must be a full frame starting with the header constant. -/
def validFrame (n : Nat) (f : List Nat) : Bool :=
  (f.length == DATA_LEN n)
  && (f.getD 0 0 == HEADER)
  && (f.getD (3 + 6 * n) 0 == calcChecksum (f.take (3 + 6 * n)) / 256)
  && (f.getD (3 + 6 * n + 1) 0 == calcChecksum (f.take (3 + 6 * n)) % 256)
  && (f.getD (3 + 6 * n + 2) 0 == FOOTER)

/-- Modelled from the spec: the missing Python host decoder loop as a
fuel-indexed recursion (every step consumes at least one byte, so buffer
length is enough fuel). SEEK_HEADER discards bytes until the header
constant; READ_BODY needs the fixed frame length available; VALIDATE either
consumes the frame and emits it, or drops only the header byte so scanning
resumes from the second buffered byte. -/
def decodeStreamAux (n : Nat) : Nat → List Nat → List (List Nat)
  | 0, _ => []
  | _ + 1, [] => []
  | fuel + 1, b :: rest =>
    if b = HEADER then
      if DATA_LEN n ≤ (b :: rest).length then
        if validFrame n ((b :: rest).take (DATA_LEN n)) then
          (b :: rest).take (DATA_LEN n)
            :: decodeStreamAux n fuel ((b :: rest).drop (DATA_LEN n))
        else decodeStreamAux n fuel rest
      else []
    else decodeStreamAux n fuel rest

/-- Modelled from the spec: run the missing Python host decoder over a
whole buffered byte stream, returning the accepted frames in order. -/
def decodeStream (n : Nat) (buf : List Nat) : List (List Nat) :=
  decodeStreamAux n buf.length buf

theorem DATA_LEN_pos (n : Nat) : 1 ≤ DATA_LEN n := by
  simp only [DATA_LEN]
  omega

theorem decodeStreamAux_congr (n : Nat) :
    ∀ (k : Nat) (buf : List Nat), buf.length ≤ k →
    ∀ fuel₁ fuel₂, buf.length ≤ fuel₁ → buf.length ≤ fuel₂ →
      decodeStreamAux n fuel₁ buf = decodeStreamAux n fuel₂ buf := by
  intro k
  induction k with
  | zero =>
    intro buf hk f₁ f₂ h₁ h₂
    have hb : buf = [] := List.eq_nil_of_length_eq_zero (by omega)
    subst hb
    cases f₁ <;> cases f₂ <;> rfl
  | succ k ih =>
    intro buf hk f₁ f₂ h₁ h₂
    cases buf with
    | nil => cases f₁ <;> cases f₂ <;> rfl
    | cons b rest =>
      simp only [List.length_cons] at hk h₁ h₂
      cases f₁ with
      | zero => omega
      | succ f₁ =>
        cases f₂ with
        | zero => omega
        | succ f₂ =>
          simp only [decodeStreamAux]
          by_cases hb : b = HEADER

          · simp only [if_pos hb]
            by_cases hlen : DATA_LEN n ≤ (b :: rest).length
            · simp only [if_pos hlen]
              by_cases hv : validFrame n ((b :: rest).take (DATA_LEN n)) = true
              · simp only [if_pos hv]
                have hdl : ((b :: rest).drop (DATA_LEN n)).length ≤ rest.length := by
                  rw [List.length_drop, List.length_cons]
                  have := DATA_LEN_pos n
                  omega
                rw [ih ((b :: rest).drop (DATA_LEN n)) (by omega) f₁ f₂
                  (by omega) (by omega)]
              · simp only [if_neg hv]
                exact ih rest (by omega) f₁ f₂ (by omega) (by omega)
            · simp only [if_neg hlen]
          · simp only [if_neg hb]
            exact ih rest (by omega) f₁ f₂ (by omega) (by omega)

theorem decodeStreamAux_fuel (n fuel : Nat) (buf : List Nat)
    (h : buf.length ≤ fuel) :
    decodeStreamAux n fuel buf = decodeStream n buf :=
  decodeStreamAux_congr n buf.length buf le_rfl fuel buf.length h le_rfl

theorem decode_skip (n b : Nat) (rest : List Nat) (hb : b ≠ HEADER) :
    decodeStream n (b :: rest) = decodeStream n rest := by
  simp only [decodeStream, List.length_cons]
  simp only [decodeStreamAux, if_neg hb]

theorem decode_reject (n : Nat) (rest : List Nat)
    (hlen : DATA_LEN n ≤ rest.length + 1)
    (hv : validFrame n ((HEADER :: rest).take (DATA_LEN n)) = false) :
    decodeStream n (HEADER :: rest) = decodeStream n rest := by
  simp only [decodeStream, List.length_cons]
  simp [decodeStreamAux, hlen, hv]

theorem decode_accept (n : Nat) (rest : List Nat)
    (hlen : DATA_LEN n ≤ rest.length + 1)
    (hv : validFrame n ((HEADER :: rest).take (DATA_LEN n)) = true) :
    decodeStream n (HEADER :: rest)
      = (HEADER :: rest).take (DATA_LEN n)
        :: decodeStream n ((HEADER :: rest).drop (DATA_LEN n)) := by
  simp only [decodeStream, List.length_cons]
  simp [decodeStreamAux, hlen, hv]
  have hdl : ((HEADER :: rest).drop (DATA_LEN n)).length
      = rest.length + 1 - DATA_LEN n := by
    rw [List.length_drop, List.length_cons]
  exact decodeStreamAux_congr n (rest.length + 1)
    ((HEADER :: rest).drop (DATA_LEN n))
    (by rw [hdl]; omega) rest.length (rest.length + 1 - DATA_LEN n)
    (by rw [hdl]; have := DATA_LEN_pos n; omega) (by rw [hdl])

theorem getD_of_get? (l : List Nat) (k v d : Nat) (h : l.get? k = some v) :
    l.getD k d = v := by
  rw [List.getD_eq_getElem?_getD, ← List.get?_eq_getElem?, h]
  rfl

theorem validFrame_sendDataFrame (seq : Nat) (raws : List (Int × Int × Int)) :
    validFrame raws.length (sendDataFrame seq raws) = true := by
  have hlen := sendDataFrame_length seq raws
  have h0 : (sendDataFrame seq raws).getD 0 0 = HEADER := by
    simp [sendDataFrame, preFrame]
  have h1 : (sendDataFrame seq raws).getD (3 + 6 * raws.length) 0
      = calcChecksum (preFrame seq raws) / 256 :=
    getD_of_get? _ _ _ _ (by simpa using sendDataFrame_tail_get seq raws 0 _ rfl)
  have h2 : (sendDataFrame seq raws).getD (3 + 6 * raws.length + 1) 0
      = calcChecksum (preFrame seq raws) % 256 :=
    getD_of_get? _ _ _ _ (sendDataFrame_tail_get seq raws 1 _ rfl)
  have h3 : (sendDataFrame seq raws).getD (3 + 6 * raws.length + 2) 0
      = FOOTER :=
    getD_of_get? _ _ _ _ (sendDataFrame_tail_get seq raws 2 _ rfl)
  simp only [validFrame, sendDataFrame_take, Bool.and_eq_true, beq_iff_eq]
  refine ⟨⟨⟨⟨?_, h0⟩, h1⟩, h2⟩, h3⟩
  rw [hlen]
  simp only [DATA_LEN]

theorem decode_single (seq : Nat) (raws : List (Int × Int × Int)) :
    decodeStream raws.length (sendDataFrame seq raws)
      = [sendDataFrame seq raws] := by
  obtain ⟨t, ht⟩ : ∃ t, sendDataFrame seq raws = HEADER :: t := ⟨_, rfl⟩
  have hlen : (sendDataFrame seq raws).length = DATA_LEN raws.length := by
    rw [sendDataFrame_length]
    simp only [DATA_LEN]
  have hlent : t.length + 1 = DATA_LEN raws.length := by
    rw [← hlen, ht, List.length_cons]
  have htake : (HEADER :: t).take (DATA_LEN raws.length) = HEADER :: t := by
    apply List.take_of_length_le
    rw [List.length_cons, hlent]
  have hv : validFrame raws.length ((HEADER :: t).take (DATA_LEN raws.length))
      = true := by
    rw [htake, ← ht]
    exact validFrame_sendDataFrame seq raws
  rw [ht, decode_accept raws.length t (by omega) hv, htake]
  have hdrop : (HEADER :: t).drop (DATA_LEN raws.length) = [] := by
    apply List.drop_eq_nil_of_le
    rw [List.length_cons, hlent]
  rw [hdrop]
  rfl

theorem decode_skip_all (n : Nat) (g : List Nat)
    (hg : DATA_LEN n ≤ g.length) :
    ∀ c : List Nat, (∀ s, s < c.length →
      validFrame n (((c ++ g).drop s).take (DATA_LEN n)) = false) →
      decodeStream n (c ++ g) = decodeStream n g := by
  intro c
  induction c with
  | nil => intro _; simp
  | cons b c2 ih =>
    intro hval
    have hshift : ∀ s, s < c2.length →
        validFrame n (((c2 ++ g).drop s).take (DATA_LEN n)) = false := by
      intro s hs
      have := hval (s + 1) (by simp only [List.length_cons]; omega)
      simpa [List.cons_append] using this
    have hlen2 : DATA_LEN n ≤ (c2 ++ g).length + 1 := by
      rw [List.length_append]
      omega
    by_cases hb : b = HEADER
    · subst hb
      rw [List.cons_append, decode_reject n (c2 ++ g) hlen2
        (by have := hval 0 (by simp only [List.length_cons]; omega)
            simpa [List.cons_append] using this)]
      exact ih hshift
    · rw [List.cons_append, decode_skip n b (c2 ++ g) hb]
      exact ih hshift

/-- Claim C3, amended: first, whenever the decoder has a header byte in
front and a full candidate frame available whose checksum or footer does
not validate, it rejects that frame and resumes header scanning at the
second buffered byte (the whole tail, not the whole buffer, is rescanned);
second, after any corrupted prefix, the next well-formed firmware frame is
decoded provided no misaligned candidate window inside the rescanned bytes
itself passes validation (the proviso the counterexample shows necessary). -/
theorem decoder_resync_c3 :
    (∀ (n : Nat) (rest : List Nat), DATA_LEN n ≤ rest.length + 1 →
      validFrame n ((HEADER :: rest).take (DATA_LEN n)) = false →
      decodeStream n (HEADER :: rest) = decodeStream n rest)
  ∧ (∀ (n seq : Nat) (raws : List (Int × Int × Int)) (c : List Nat),
      raws.length = n →
      (∀ s, s < c.length →
        validFrame n (((c ++ sendDataFrame seq raws).drop s).take (DATA_LEN n))
          = false) →
      decodeStream n (c ++ sendDataFrame seq raws)
        = [sendDataFrame seq raws]) := by
  refine ⟨decode_reject, ?_⟩
  intro n seq raws c h hval
  subst h
  have hg : DATA_LEN raws.length ≤ (sendDataFrame seq raws).length := by
    rw [sendDataFrame_length]
    simp only [DATA_LEN]
    omega
  rw [decode_skip_all raws.length (sendDataFrame seq raws) hg c hval]
  exact decode_single seq raws

/-- Witness for C3 at concrete inputs: a corrupted single-sensor frame
(payload byte 3 changed from 0 to 5, so its checksum no longer matches) is
rejected and rescanned from its second byte, and with a well-formed frame
for the reading (1, 2, 3) appended, exactly that frame is decoded. -/
theorem decoder_resync_c3_witness :
    decodeStream 1 (HEADER :: [0, 0, 5, 1, 0, 2, 0, 3, 0, 133, 254])
      = decodeStream 1 [0, 0, 5, 1, 0, 2, 0, 3, 0, 133, 254]
  ∧ decodeStream 1 (([127, 0, 0, 5, 1, 0, 2, 0, 3, 0, 133, 254] : List Nat)
        ++ sendDataFrame 0 [((1 : Int), 2, 3)])
      = [sendDataFrame 0 [((1 : Int), 2, 3)]] :=
  ⟨decoder_resync_c3.1 1 [0, 0, 5, 1, 0, 2, 0, 3, 0, 133, 254]
      (by decide) (by decide),
   decoder_resync_c3.2 1 0 [((1 : Int), 2, 3)]
      [127, 0, 0, 5, 1, 0, 2, 0, 3, 0, 133, 254] rfl (by decide)⟩

/-- Counterexample to C3 as stated: the stream is a firmware frame for the
single reading 12415 with one payload byte corrupted (byte 5 changed from 0
to 9), followed by the well-formed frame for sequence 564 and reading -512.
The corrupted frame is rejected, but during the rescan a header-constant
byte inside its payload lines up with a window whose additive checksum and
footer also validate by coincidence, so the decoder emits that spurious
window and the next well-formed frame is never decoded. -/
theorem decoder_resync_c3_counterexample :
    ([127, 0, 0, 48, 127, 9, 0, 0, 0, 1, 46, 254] : List Nat)
      = (sendDataFrame 0 [((12415 : Int), 0, 0)]).set 5 9
  ∧ validFrame 1 [127, 0, 0, 48, 127, 9, 0, 0, 0, 1, 46, 254] = false
  ∧ decodeStream 1 (([127, 0, 0, 48, 127, 9, 0, 0, 0, 1, 46, 254] : List Nat)
        ++ sendDataFrame 564 [((-512 : Int), 0, 0)])
      = [[127, 9, 0, 0, 0, 1, 46, 254, 127, 2, 52, 254]]
  ∧ ¬ sendDataFrame 564 [((-512 : Int), 0, 0)] ∈
      decodeStream 1 (([127, 0, 0, 48, 127, 9, 0, 0, 0, 1, 46, 254] : List Nat)
        ++ sendDataFrame 564 [((-512 : Int), 0, 0)]) := by
  refine ⟨by decide, by decide, by decide, by decide⟩

/-! ## Host sequence tracking (spec-modelled) -/

/-- Modelled from the spec: sequence tracking of the missing Python host
decoder. Before the first accepted frame no seq is stored and the reported
gap saturates at 0; afterwards the gap is ((new - last) mod 65536) - 1
whenever the mod-65536 difference is not 1, and 0 otherwise. -/
def seqGapOf : Option Nat → Nat → Nat
  | none, _ => 0
  | some l, s =>
    let d := (s % 65536 + 65536 - l % 65536) % 65536
    if d = 1 then 0 else d - 1

/-- Modelled from the spec: one accepted frame updates the stored seq
unconditionally and reports the gap of seqGapOf. -/
def seqStep (st : Option Nat) (s : Nat) : Nat × Option Nat := (seqGapOf st s, some s)

/-- Modelled from the spec: the per-frame reported gaps over a run of
accepted seq values. -/
def runSeqFrom : Option Nat → List Nat → List Nat
  | _, [] => []
  | st, s :: t => (seqStep st s).1 :: runSeqFrom (seqStep st s).2 t

/-- Modelled from the spec: gap reports for a whole session, starting with
no stored seq. -/
def runSeq (l : List Nat) : List Nat := runSeqFrom none l

/-- Claim C4: between consecutively accepted frames the host reports a gap
of ((new - last) mod 65536) - 1 exactly when the mod-65536 difference is
not 1, saturating at 0 on the first frame, and updates the stored seq
unconditionally; in particular accepted seq values 10, 11, 13 report gaps
0, 0, 1 (total exactly 1) and the wraparound 65535 to 0 reports gap 0. -/
theorem seq_gap_c4 :
    (∀ (st : Option Nat) (s : Nat), (seqStep st s).2 = some s)
  ∧ (∀ l s : Nat, l < 65536 → s < 65536 →
      ((s + 65536 - l) % 65536 ≠ 1 →
        (seqStep (some l) s).1 = (s + 65536 - l) % 65536 - 1)
      ∧ ((s + 65536 - l) % 65536 = 1 → (seqStep (some l) s).1 = 0))
  ∧ (∀ s : Nat, (seqStep none s).1 = 0)
  ∧ runSeq [10, 11, 13] = [0, 0, 1]
  ∧ runSeq [65535, 0] = [0, 0] := by
  refine ⟨fun st s => by cases st <;> rfl, ?_, fun s => rfl, by decide, by decide⟩
  intro l s hl hs
  have hml : l % 65536 = l := Nat.mod_eq_of_lt hl
  have hms : s % 65536 = s := Nat.mod_eq_of_lt hs
  constructor
  · intro h
    simp [seqStep, seqGapOf, hml, hms, h]
  · intro h
    simp [seqStep, seqGapOf, hml, hms, h]

/-- Witness for C4: after accepting seq 11 then seq 13, the reported gap is
exactly 1 and the stored seq becomes 13. -/
theorem seq_gap_c4_witness :
    (seqStep (some 11) 13).1 = 1 ∧ (seqStep (some 11) 13).2 = some 13 :=
  ⟨((seq_gap_c4.2.1 11 13 (by decide) (by decide)).1 (by decide)).trans
      (by decide),
   seq_gap_c4.1 (some 11) 13⟩

/-! ## Host raw-to-physical conversion (Processing sketch: Accel.pde)

Float arithmetic of the sketch is modelled as exact rational arithmetic;
the claims are about the conversion formulas. -/

/-- Full-scale range configured in the Processing sketch, in g. -/
def FULL_SCALE : ℚ := 16

/-- Accel.convertToG: raw count times (2 x FULL_SCALE) / (1 shl 16). -/
def convertToG (a : Int) : ℚ := (a : ℚ) * (2 * FULL_SCALE) / ((1 <<< 16 : Nat) : ℚ)

/-- Accel.convertToMS2: g to meters per second squared via the factor 9.8. -/
def convertToMS2 (ag : ℚ) : ℚ := ag * (9.8 : ℚ)

/-- The Accel record of the sketch (values in meters per second squared
once built from raw counts). -/
structure Accel where
  ax : ℚ
  ay : ℚ
  az : ℚ
deriving DecidableEq

/-- The Accel constructor taking raw int counts, as invoked by serialEvent
for the samples pushed into the per-sensor history. -/
def mkAccel (ax ay az : Int) : Accel :=
  ⟨convertToMS2 (convertToG ax), convertToMS2 (convertToG ay),
   convertToMS2 (convertToG az)⟩

/-- convertRawAccel: the standalone conversion of a raw triple to g. -/
def convertRawAccel (raw : Int × Int × Int) : ℚ × ℚ × ℚ :=
  ((raw.1 : ℚ) * (2 * FULL_SCALE) / ((1 <<< 16 : Nat) : ℚ),
   (raw.2.1 : ℚ) * (2 * FULL_SCALE) / ((1 <<< 16 : Nat) : ℚ),
   (raw.2.2 : ℚ) * (2 * FULL_SCALE) / ((1 <<< 16 : Nat) : ℚ))

/-- Claim C5: the host raw-to-physical conversion yields
raw x (2 x FULL_SCALE) / 65536 in g, on both conversion paths, and the
Accel stored in the per-sensor history carries that value further
multiplied by 9.8, identically on each of the three axes. -/
theorem conversion_c5 :
    (∀ r : Int, convertToG r = (r : ℚ) * (2 * FULL_SCALE) / 65536)
  ∧ (∀ raw : Int × Int × Int,
      convertRawAccel raw = (convertToG raw.1, convertToG raw.2.1, convertToG raw.2.2))
  ∧ (∀ ax ay az : Int,
      mkAccel ax ay az = ⟨(9.8 : ℚ) * convertToG ax, (9.8 : ℚ) * convertToG ay,
        (9.8 : ℚ) * convertToG az⟩) := by
  have hshift : ((1 <<< 16 : Nat) : ℚ) = 65536 := by
    norm_num [Nat.shiftLeft_eq]
  refine ⟨?_, ?_, ?_⟩
  · intro r
    rw [convertToG, hshift]
    norm_num
  · intro raw
    rfl
  · intro ax ay az
    simp only [mkAccel, convertToMS2, Accel.mk.injEq]
    exact ⟨mul_comm _ _, mul_comm _ _, mul_comm _ _⟩

/-! ## Per-sensor bounded history (Processing sketch: serialEvent) -/

/-- The bounded per-sensor history append of serialEvent: add the new
sample at the end, then remove the oldest entry when the size exceeds the
window length W (the sketch constant DATA_LEN). -/
def ringAppend {α : Type*} (W : Nat) (l : List α) (a : α) : List α :=
  if W < (l ++ [a]).length then (l ++ [a]).tail else l ++ [a]

theorem ringAppend_le {α : Type*} (W : Nat) (l : List α) (a : α)
    (h : l.length ≤ W) : (ringAppend W l a).length ≤ W := by
  simp only [ringAppend]
  split_ifs with hlt
  · simp only [List.length_tail, List.length_append, List.length_cons,
      List.length_nil]
    omega
  · simp only [List.length_append, List.length_cons, List.length_nil] at hlt ⊢
    omega

theorem ringAppend_foldl {α : Type*} (W : Nat) :
    ∀ (xs l : List α), l.length ≤ W →
      xs.foldl (ringAppend W) l = (l ++ xs).drop (l.length + xs.length - W) := by
  intro xs
  induction xs with
  | nil =>
    intro l h
    simp only [List.foldl_nil, List.append_nil, List.length_nil, Nat.add_zero]
    rw [Nat.sub_eq_zero_of_le h, List.drop_zero]
  | cons a xs ih =>
    intro l h
    simp only [List.foldl_cons]
    by_cases hW : l.length < W
    · have hra : ringAppend W l a = l ++ [a] := by
        simp only [ringAppend]
        rw [if_neg]
        simp only [List.length_append, List.length_cons, List.length_nil]
        omega
      rw [hra, ih (l ++ [a]) (by simp only [List.length_append,
        List.length_cons, List.length_nil]; omega)]
      have hassoc : (l ++ [a]) ++ xs = l ++ a :: xs := by simp
      rw [hassoc]
      congr 1
      simp only [List.length_append, List.length_cons, List.length_nil]
      omega
    · have hl : l.length = W := by omega
      have hra : ringAppend W l a = (l ++ [a]).tail := by
        simp only [ringAppend]
        rw [if_pos]
        simp only [List.length_append, List.length_cons, List.length_nil]
        omega
      rw [hra, ih ((l ++ [a]).tail) (by simp only [List.length_tail,
        List.length_append, List.length_cons, List.length_nil]; omega)]
      rw [← List.drop_one]
      have hx : ((l ++ [a]) ++ xs).drop 1 = (l ++ [a]).drop 1 ++ xs := by
        rw [List.drop_append_eq_append_drop]
        have h10 : 1 - (l ++ [a]).length = 0 := by
          simp only [List.length_append, List.length_cons, List.length_nil]
          omega
        rw [h10, List.drop_zero]
      rw [← hx, List.drop_drop]
      have hassoc : (l ++ [a]) ++ xs = l ++ a :: xs := by simp
      rw [hassoc]
      congr 1
      simp only [List.length_drop, List.length_tail, List.length_append,
        List.length_cons, List.length_nil]
      omega

/-- Claim C6: a history of length at most W stays at most W after the
serialEvent append, and appending W + 1 samples to an initially empty
history leaves exactly the last W appended samples in their original
order (the oldest sample is the one evicted). -/
theorem ring_buffer_c6 {α : Type*} (W : Nat) :
    (∀ (l : List α) (a : α), l.length ≤ W → (ringAppend W l a).length ≤ W)
  ∧ (∀ xs : List α, xs.length = W + 1 →
      xs.foldl (ringAppend W) [] = xs.drop 1) := by
  constructor
  · exact fun l a h => ringAppend_le W l a h
  · intro xs hxs
    rw [ringAppend_foldl W xs [] (by simp)]
    simp only [List.nil_append, List.length_nil, Nat.zero_add]
    congr 1
    omega

/-- Witness for C6 with W = 2: appending to a full two-element history
keeps the length at 2, and appending three samples to an empty history
leaves the last two in order. -/
theorem ring_buffer_c6_witness :
    (ringAppend 2 ([10, 20] : List Nat) 30).length ≤ 2
  ∧ ([10, 20, 30] : List Nat).foldl (ringAppend 2) [] = [20, 30] :=
  ⟨(ring_buffer_c6 2).1 [10, 20] 30 (by decide),
   ((ring_buffer_c6 2).2 ([10, 20, 30] : List Nat) (by decide)).trans
      (by decide)⟩

/-! ## Quadrature detection (Processing sketch: setup, calcSSandCCsum,
detectPhase, detectAmp)

Float arithmetic is modelled over the reals; the library atan2 called by
the sketch is modelled as the argument of the complex number x + y i. -/

/-- Amplitude of the reference tables as set in setup. -/
noncomputable def refAmp : ℝ := 1

/-- Phase offset of the reference tables as set in setup. -/
noncomputable def refPhase : ℝ := 0

/-- SS reference table built in setup: amp * sin(2 pi f (i * 1 / fs) + phase). -/
noncomputable def SS (f fs : ℝ) (i : Nat) : ℝ :=
  refAmp * Real.sin (2 * Real.pi * f * (i * 1 / fs) + refPhase)

/-- CC reference table built in setup: amp * cos(2 pi f (i * 1 / fs) + phase). -/
noncomputable def CC (f fs : ℝ) (i : Nat) : ℝ :=
  refAmp * Real.cos (2 * Real.pi * f * (i * 1 / fs) + refPhase)

/-- calcSSandCCsum: one pass over the window of length W, accumulating both
correlation sums left to right. -/
noncomputable def calcSSandCCsum (W : Nat) (f fs : ℝ) (x : Nat → ℝ) : ℝ × ℝ :=
  (List.range W).foldl
    (fun p i => (p.1 + SS f fs i * x i, p.2 + CC f fs i * x i)) (0, 0)

/-- Java Math.atan2(y, x), modelled as the argument of x + y i. -/
noncomputable def atan2 (y x : ℝ) : ℝ := Complex.arg ⟨x, y⟩

/-- detectPhase: atan2 of the two correlation sums, CCsum first. -/
noncomputable def detectPhase (SSsum CCsum : ℝ) : ℝ := atan2 CCsum SSsum

/-- detectAmp: sqrt of the sum of squared correlation sums, scaled by 2 / W. -/
noncomputable def detectAmp (W : Nat) (SSsum CCsum : ℝ) : ℝ :=
  Real.sqrt (SSsum * SSsum + CCsum * CCsum) * 2 / W

theorem calcSSandCCsum_eq (f fs : ℝ) (x : Nat → ℝ) (W : Nat) :
    calcSSandCCsum W f fs x
      = (∑ i ∈ Finset.range W, SS f fs i * x i,
         ∑ i ∈ Finset.range W, CC f fs i * x i) := by
  induction W with
  | zero => simp [calcSSandCCsum]
  | succ W ih =>
    rw [calcSSandCCsum, List.range_succ, List.foldl_append, List.foldl_cons,
      List.foldl_nil]
    rw [show (List.range W).foldl
      (fun p i => (p.1 + SS f fs i * x i, p.2 + CC f fs i * x i)) ((0 : ℝ), (0 : ℝ))
      = calcSSandCCsum W f fs x from rfl, ih]
    simp [Finset.sum_range_succ]

/-- Claim C7: with the reference tables S and C holding sin and cos of
2 pi f i / fs, the quadrature detector computes SSsum and CCsum as the
left-to-right correlation sums of the window against the tables, and
returns Phase = atan2(CCsum, SSsum) and
Amplitude = 2 sqrt(SSsum^2 + CCsum^2) / W, as a pure deterministic
function of the window and the tables. -/
theorem quadrature_c7 (W : Nat) (f fs : ℝ) (x : Nat → ℝ) :
    calcSSandCCsum W f fs x
      = (∑ i ∈ Finset.range W, SS f fs i * x i,
         ∑ i ∈ Finset.range W, CC f fs i * x i)
  ∧ (∀ i : Nat, SS f fs i = Real.sin (2 * Real.pi * f * i / fs))
  ∧ (∀ i : Nat, CC f fs i = Real.cos (2 * Real.pi * f * i / fs))
  ∧ (∀ s c : ℝ, detectPhase s c = atan2 c s)
  ∧ (∀ s c : ℝ, detectAmp W s c = 2 * Real.sqrt (s ^ 2 + c ^ 2) / W) := by
  refine ⟨calcSSandCCsum_eq f fs x W, ?_, ?_, fun s c => rfl, ?_⟩
  · intro i
    rw [SS, refAmp, refPhase, one_mul, add_zero, mul_one, mul_div_assoc]
  · intro i
    rw [CC, refAmp, refPhase, one_mul, add_zero, mul_one, mul_div_assoc]
  · intro s c
    have hsq : s * s + c * c = s ^ 2 + c ^ 2 := by ring
    rw [detectAmp, hsq]
    ring

/-! ## Firmware command handling and sensor driver (loop, LSM6DS3::begin) -/

/-- CTRL1_XL output-data-rate setting used when the firmware initializes a
sensor. -/
def ACC_ODR_1660Hz : Nat := 0x80

/-- CTRL1_XL full-scale setting used when the firmware initializes a
sensor. -/
def ACC_FS_16G : Nat := 0x04

/-- CTRL1_XL bandwidth setting used when the firmware initializes a
sensor. -/
def ACC_BW_400Hz : Nat := 0x00

/-- CTRL2_G output-data-rate setting used when the firmware initializes a
sensor. -/
def GYR_ODR_416Hz : Nat := 0x60

/-- CTRL2_G full-scale setting used when the firmware initializes a
sensor. -/
def GYR_FS_2000DPS : Nat := 0x0C

/-- One LSM6DS3 driver instance together with the writable configuration
registers of its chip; whoami is the value a WHO_AM_I register read
returns. -/
structure LSM6DS3 where
  whoami : Nat
  ctrl1_xl : Nat
  ctrl2_g : Nat
  ctrl3_c : Nat
  accelScale : Nat
  gyroScale : Nat
deriving DecidableEq

/-- The begin member of LSM6DS3: check WHO_AM_I and return false on
mismatch before any write; otherwise store the scale fields and write
CTRL1_XL (odr, fs, bw), CTRL2_G (odr, fs) and CTRL3_C (BDU and IF_INC). -/
def LSM6DS3.begin (s : LSM6DS3) (aOdr aScale aBw gOdr gScale : Nat) :
    Bool × LSM6DS3 :=
  if s.whoami ≠ 0x6A then (false, s)
  else
    (true, { s with
      accelScale := aScale,
      gyroScale := gScale,
      ctrl1_xl := aOdr ||| aScale ||| aBw,
      ctrl2_g := gOdr ||| gScale,
      ctrl3_c := 0x40 ||| 0x04 })

/-- The sensor re-initialization the firmware runs on the s command: begin
every sensor with the fixed configuration, ignoring the returned flag. -/
def reinitSensors (ss : List LSM6DS3) : List LSM6DS3 :=
  ss.map (fun s => (s.begin ACC_ODR_1660Hz ACC_FS_16G ACC_BW_400Hz
    GYR_ODR_416Hz GYR_FS_2000DPS).2)

/-- Firmware device state touched by the command loop: streaming flag,
sequence counter, frame buffer and the sensor instances. -/
structure Device where
  active : Bool
  g_seq : Nat
  send_data : List Nat
  sensors : List LSM6DS3
deriving DecidableEq

/-- The command dispatch of loop: on s the sensors are re-initialized and
streaming starts; e stops streaming; r restarts without touching the
sensors; any other byte does nothing. -/
def loopCmd (d : Device) (chr : Char) : Device :=
  if chr = 's' then
    { d with sensors := reinitSensors d.sensors, active := true }
  else if chr = 'e' then { d with active := false }
  else if chr = 'r' then { d with active := true }
  else d

/-- Claim C10: the begin member of LSM6DS3 returns true exactly when
WHO_AM_I reads 0x6A, and when it returns false the entire driver state is
unchanged: no configuration register is written and both stored scale
fields keep their previous values. -/
theorem driver_begin_c10 (s : LSM6DS3) (aOdr aScale aBw gOdr gScale : Nat) :
    ((s.begin aOdr aScale aBw gOdr gScale).1 = true ↔ s.whoami = 0x6A)
  ∧ ((s.begin aOdr aScale aBw gOdr gScale).1 = false →
      (s.begin aOdr aScale aBw gOdr gScale).2 = s) := by
  constructor
  · constructor
    · intro h
      by_contra hw
      simp [LSM6DS3.begin, hw] at h
    · intro hw
      simp [LSM6DS3.begin, hw]
  · intro h
    by_cases hw : s.whoami = 0x6A
    · simp [LSM6DS3.begin, hw] at h
    · simp [LSM6DS3.begin, hw]

/-- Witness for C10: a sensor whose WHO_AM_I reads 0 fails begin with its
state intact; one whose WHO_AM_I reads 0x6A succeeds. -/
theorem driver_begin_c10_witness :
    (LSM6DS3.begin ⟨0, 1, 2, 3, 4, 5⟩ 0x80 0x04 0x00 0x60 0x0C).2
      = ⟨0, 1, 2, 3, 4, 5⟩
  ∧ (LSM6DS3.begin ⟨0x6A, 1, 2, 3, 4, 5⟩ 0x80 0x04 0x00 0x60 0x0C).1 = true :=
  ⟨(driver_begin_c10 ⟨0, 1, 2, 3, 4, 5⟩ 0x80 0x04 0x00 0x60 0x0C).2 (by decide),
   (driver_begin_c10 ⟨0x6A, 1, 2, 3, 4, 5⟩ 0x80 0x04 0x00 0x60 0x0C).1.mpr rfl⟩

/-- Claim C8, amended: the e and r commands toggle only the streaming
flag (r re-arms without reinitializing the sensors), but the s command
first re-initializes every sensor, rewriting configuration registers and
scale fields of each sensor whose WHO_AM_I matches, and then sets the
flag; the sequence counter and the frame buffer are left unchanged by all
command processing. -/
theorem commands_c8 (d : Device) :
    loopCmd d 'e' = { d with active := false }
  ∧ loopCmd d 'r' = { d with active := true }
  ∧ loopCmd d 's' = { d with active := true, sensors := reinitSensors d.sensors }
  ∧ (∀ c : Char, (loopCmd d c).g_seq = d.g_seq
      ∧ (loopCmd d c).send_data = d.send_data) := by
  refine ⟨by simp [loopCmd], by simp [loopCmd], by simp [loopCmd], ?_⟩
  intro c
  simp only [loopCmd]
  split_ifs <;> simp

/-- Counterexample to C8 as stated: with one healthy sensor attached
(WHO_AM_I reads 0x6A) the s command does not merely set the streaming
flag: it rewrites the configuration registers of the sensor. -/
theorem commands_c8_counterexample :
    loopCmd ⟨false, 7, [1, 2], [⟨0x6A, 0, 0, 0, 0, 0⟩]⟩ 's'
      ≠ { (⟨false, 7, [1, 2], [⟨0x6A, 0, 0, 0, 0, 0⟩]⟩ : Device) with
          active := true }
  ∧ (loopCmd ⟨false, 7, [1, 2], [⟨0x6A, 0, 0, 0, 0, 0⟩]⟩ 's').sensors
      ≠ [⟨0x6A, 0, 0, 0, 0, 0⟩] :=
  ⟨by decide, by decide⟩

/-! ## Persisted logs (Processing sketch: keyPressed r and o,
measureAmpWithQD) -/

/-- Header row the o command writes to the measurement log. -/
def measurementHeader : String := "timestamp,az"

/-- The data rows of the measurement log: one row per accepted sample of
the recorded channel, each carrying the timestamp and the az value only. -/
def measurementRows (ts : List Int) (samples : List Accel) : List (Int × ℚ) :=
  List.zipWith (fun t a => (t, a.az)) ts samples

/-- Header row measureAmpWithQD writes to the sweep log. -/
def sweepHeader : String :=
  "frequency,amp_setting,qd_amp [m/s^2],max_amp [m/s^2]"

/-- The data rows of the sweep log: one row per sweep step, carrying the
stimulus frequency, the amplitude setting, the quadrature amplitude and
the peak amplitude observed at that step. -/
def sweepRows (freq : ℚ) (settings : List ℚ) (qd mx : ℚ → ℚ) : List (List ℚ) :=
  settings.map (fun s => [freq, s, qd s, mx s])

theorem get?_zipWith {α β γ : Type*} (f : α → β → γ) :
    ∀ (l₁ : List α) (l₂ : List β) (i : Nat) (x : α) (y : β),
      l₁.get? i = some x → l₂.get? i = some y →
      (List.zipWith f l₁ l₂).get? i = some (f x y) := by
  intro l₁
  induction l₁ with
  | nil => intro l₂ i x y hx; simp at hx
  | cons a t ih =>
    intro l₂ i x y hx hy
    cases l₂ with
    | nil => simp at hy
    | cons b t₂ =>
      cases i with
      | zero =>
        simp only [List.get?_cons_zero, Option.some.injEq] at hx hy
        subst hx
        subst hy
        rfl
      | succ i =>
        simp only [List.get?_cons_succ] at hx hy
        simpa using ih t₂ i x y hx hy

/-- Claim C9, amended: when recording stops the measurement log has header
"timestamp,az" and exactly one row per accepted sample of the recorded
channel, each row holding the timestamp and the az value only (ax and ay
are not persisted); each quadrature-sweep step appends exactly one row
with the four quantities frequency, amplitude setting, quadrature
amplitude and peak amplitude. -/
theorem logs_c9 (ts : List Int) (samples : List Accel)
    (h : ts.length = samples.length) (freq : ℚ) (settings : List ℚ)
    (qd mx : ℚ → ℚ) :
    measurementHeader = "timestamp,az"
  ∧ (measurementRows ts samples).length = ts.length
  ∧ (∀ i t a, ts.get? i = some t → samples.get? i = some a →
      (measurementRows ts samples).get? i = some (t, a.az))
  ∧ (sweepRows freq settings qd mx).length = settings.length
  ∧ (∀ i s, settings.get? i = some s →
      (sweepRows freq settings qd mx).get? i = some [freq, s, qd s, mx s]) := by
  refine ⟨rfl, ?_, ?_, ?_, ?_⟩
  · simp [measurementRows, h]
  · intro i t a ht ha
    exact get?_zipWith _ ts samples i t a ht ha
  · simp [sweepRows]
  · intro i s hs
    rw [sweepRows, List.get?_map, hs]
    rfl

/-- Witness for C9 at concrete inputs: one recorded sample with timestamp
100 and az value 3, and a single sweep step at setting 1/2 with identity
amplitude readouts. -/
theorem logs_c9_witness :
    (measurementRows [100] [⟨1, 2, 3⟩]).get? 0 = some (100, 3)
  ∧ (sweepRows 70 [1/2] (fun q => q) (fun q => q)).get? 0
      = some [70, 1/2, 1/2, 1/2] := by
  have h := logs_c9 [100] [⟨1, 2, 3⟩] rfl 70 [1/2] (fun q => q) (fun q => q)
  exact ⟨h.2.2.1 0 100 ⟨1, 2, 3⟩ rfl rfl, h.2.2.2.2 0 (1/2) rfl⟩

/-- Counterexample to C9 as stated: the measurement log the o command
writes has header "timestamp,az", not the claimed columns
timestamp, ax, ay, az. -/
theorem logs_c9_counterexample :
    measurementHeader ≠ "timestamp,ax,ay,az"
  ∧ measurementHeader = "timestamp,az" :=
  ⟨by decide, rfl⟩

end IMUMeas
